import Mathlib

/-!
# DHelix-Coin: shallow embedding and verification

A shallow embedding of the DHelix token / governance program
(`src/token/src/lib.rs`) together with theorems settling the frozen
claims about it.

Modelling conventions:
* a byte is a `Nat` (well-formedness predicates record `< 256` where it
  matters); an account's data region is a `List Nat`;
* `u64`/`usize` arithmetic that the Rust source performs with unchecked
  operators (which wrap in release builds, the build style of this kind
  of program) is modelled with explicit `% 2^64`;
* checked Rust arithmetic (`checked_add` / `checked_sub`) is modelled
  with `Option`-returning functions;
* fallible Rust functions returning `Result<_, ProgramError>` become
  `Except ProgramError _`; the one function whose failure can follow a
  region write (`execute_proposal`) instead returns an outcome that
  carries the account state as mutated so far, and Rust panics
  (out-of-bounds slice indexing) are modelled by a dedicated outcome
  constructor.
-/

namespace DHelix

instance decEqExcept {ε α : Type} [DecidableEq ε] [DecidableEq α] :
    DecidableEq (Except ε α) := fun a b =>
  match a, b with
  | .error e1, .error e2 =>
    if h : e1 = e2 then .isTrue (by rw [h])
    else .isFalse (by intro hc; cases hc; exact h rfl)
  | .error _, .ok _ => .isFalse (by intro hc; cases hc)
  | .ok _, .error _ => .isFalse (by intro hc; cases hc)
  | .ok a1, .ok a2 =>
    if h : a1 = a2 then .isTrue (by rw [h])
    else .isFalse (by intro hc; cases hc; exact h rfl)

/-! ## Errors

`ProgramError` models the Solana error type restricted to the variants
this program produces; `DHelixError` is the program's own error enum,
converted to `ProgramError.Custom` with its discriminant exactly as the
Rust `From` impl does (`e as u32`). -/

inductive ProgramError where
  | InvalidAccountData
  | AccountDataTooSmall
  | InvalidArgument
  | InvalidInstructionData
  | MissingRequiredSignature
  | NotEnoughAccountKeys
  | UninitializedAccount
  | InsufficientFunds
  | Custom (code : Nat)
  deriving DecidableEq, Repr

inductive DHelixError where
  | InvalidDestinationAccount
  | InsufficientFunds
  | OverflowError
  | UnderflowError
  | Unauthorized
  | InvalidMultisigAccount
  | AccountLocked
  deriving DecidableEq, Repr

def DHelixError.toProgramError : DHelixError → ProgramError
  | .InvalidDestinationAccount => .Custom 0
  | .InsufficientFunds => .Custom 1
  | .OverflowError => .Custom 2
  | .UnderflowError => .Custom 3
  | .Unauthorized => .Custom 4
  | .InvalidMultisigAccount => .Custom 5
  | .AccountLocked => .Custom 6

/-! ## Machine arithmetic -/

/-- `2^64`, the modulus of `u64`/`usize` arithmetic. -/
def U64MOD : Nat := 2 ^ 64

/-- Rust `a.checked_add(b)` on `u64` (for `a, b` already in range). -/
def checkedAdd (a b : Nat) : Option Nat :=
  if a + b < U64MOD then some (a + b) else none

/-- Rust `a.checked_sub(b)` on an unsigned integer. -/
def checkedSub (a b : Nat) : Option Nat :=
  if b ≤ a then some (a - b) else none

/-- Release-mode Rust `a - b` on `usize` (wrapping on underflow), for
`b ≤ 2^64`. -/
def wrapSub64 (a b : Nat) : Nat := (a + (U64MOD - b)) % U64MOD

/-- Release-mode Rust `a * b` on `u64` (wrapping). -/
def wrapMul64 (a b : Nat) : Nat := (a * b) % U64MOD

/-- Release-mode Rust `a + b` on `u64` (wrapping). -/
def wrapAdd64 (a b : Nat) : Nat := (a + b) % U64MOD

/-! ## Little-endian byte strings -/

/-- The `w`-byte little-endian encoding of `n` (truncating above
`256^w`), as done by `to_le_bytes`. -/
def leBytes : Nat → Nat → List Nat
  | 0, _ => []
  | w + 1, n => n % 256 :: leBytes w (n / 256)

/-- Value of a little-endian byte string, as read by `from_le_bytes`. -/
def fromLE : List Nat → Nat
  | [] => 0
  | b :: bs => b + 256 * fromLE bs

@[simp] theorem length_leBytes (w n : Nat) : (leBytes w n).length = w := by
  induction w generalizing n with
  | zero => rfl
  | succ w ih => simp [leBytes, ih]

theorem fromLE_leBytes (w n : Nat) (h : n < 256 ^ w) :
    fromLE (leBytes w n) = n := by
  induction w generalizing n with
  | zero => simp [pow_zero] at h; simp [leBytes, fromLE, h]
  | succ w ih =>
      have hdiv : n / 256 < 256 ^ w := by
        rw [Nat.div_lt_iff_lt_mul (by norm_num)]
        calc n < 256 ^ (w + 1) := h
        _ = 256 ^ w * 256 := by ring
      simp only [leBytes, fromLE, ih _ hdiv]
      omega

theorem leBytes_mem_lt (w n : Nat) : ∀ b ∈ leBytes w n, b < 256 := by
  induction w generalizing n with
  | zero => simp [leBytes]
  | succ w ih =>
      intro b hb
      simp only [leBytes, List.mem_cons] at hb
      rcases hb with h | h
      · omega
      · exact ih _ _ h

/-- If every byte of a string is zero, its little-endian value is 0. -/
theorem fromLE_eq_zero_of_all_zero (bs : List Nat)
    (h : ∀ b ∈ bs, b = 0) : fromLE bs = 0 := by
  induction bs with
  | nil => rfl
  | cons b bs ih =>
      simp only [fromLE]
      have hb := h b (by simp)
      have := ih (fun x hx => h x (by simp [hx]))
      omega

/-! ## Borsh readers

Parsers over a byte list, returning the parsed value and the remaining
bytes, or `none` on malformed input (borsh deserialization failure). -/

/-- Read exactly `k` raw bytes. -/
def readBytes (k : Nat) (bs : List Nat) : Option (List Nat × List Nat) :=
  if k ≤ bs.length then some (bs.take k, bs.drop k) else none

/-- Read a `k`-byte little-endian unsigned integer. -/
def readNat (k : Nat) (bs : List Nat) : Option (Nat × List Nat) :=
  (readBytes k bs).map fun p => (fromLE p.1, p.2)

/-- Read a borsh `bool`: one byte, `0 ↦ false`, `1 ↦ true`, otherwise
a deserialization error. -/
def readBool : List Nat → Option (Bool × List Nat)
  | 0 :: rest => some (false, rest)
  | 1 :: rest => some (true, rest)
  | _ => none

/-- Read exactly `fuel` consecutive records with the record reader
`re`. Borsh reads a `u32` count and then that many elements. -/
def readCount {β : Type} (re : List Nat → Option (β × List Nat)) :
    Nat → List Nat → Option (List β × List Nat)
  | 0, bs => some ([], bs)
  | fuel + 1, bs => do
      let (e, bs1) ← re bs
      let (l, bs2) ← readCount re fuel bs1
      some (e :: l, bs2)

/-- Read a borsh sequence: `u32` little-endian length, then the
elements. -/
def readSeq {β : Type} (re : List Nat → Option (β × List Nat))
    (bs : List Nat) : Option (List β × List Nat) := do
  let (n, bs1) ← readNat 4 bs
  readCount re n bs1

/-! ## Borsh writers -/

/-- Serialize a borsh `bool`. -/
def serBool (b : Bool) : List Nat := [if b then 1 else 0]

/-- Serialize a borsh sequence: `u32` little-endian length followed by
the serialized elements. Borsh serializes a `HashMap` this way from its
entries in canonical (key-sorted) order; records below model a map by
that canonical entry list. -/
def serSeq {β : Type} (se : β → List Nat) (l : List β) : List Nat :=
  leBytes 4 l.length ++ (l.map se).flatten

/-! ## Reader/writer round trips -/

theorem readBytes_append (k : Nat) (l r : List Nat) (h : l.length = k) :
    readBytes k (l ++ r) = some (l, r) := by
  subst h
  simp [readBytes, List.take_left, List.drop_left]

theorem readNat_append (k n : Nat) (r : List Nat) (h : n < 256 ^ k) :
    readNat k (leBytes k n ++ r) = some (n, r) := by
  simp [readNat, readBytes_append k _ r (length_leBytes k n),
    fromLE_leBytes k n h]

theorem readBool_serBool (b : Bool) (r : List Nat) :
    readBool (serBool b ++ r) = some (b, r) := by
  cases b <;> simp [serBool, readBool]

theorem readCount_append {β : Type} (re : List Nat → Option (β × List Nat))
    (l : List β) (se : β → List Nat) (r : List Nat)
    (h : ∀ e ∈ l, ∀ rest, re (se e ++ rest) = some (e, rest)) :
    readCount re l.length ((l.map se).flatten ++ r) = some (l, r) := by
  induction l with
  | nil => simp [readCount]
  | cons e l ih =>
      have he := h e (by simp)
      have ihl := ih (fun x hx => h x (by simp [hx]))
      simp only [List.map_cons, List.flatten_cons, List.length_cons,
        List.append_assoc, readCount]
      rw [he ((l.map se).flatten ++ r)]
      simp [ihl]

theorem readSeq_serSeq {β : Type} (re : List Nat → Option (β × List Nat))
    (se : β → List Nat) (l : List β) (r : List Nat)
    (hlen : l.length < 256 ^ 4)
    (h : ∀ e ∈ l, ∀ rest, re (se e ++ rest) = some (e, rest)) :
    readSeq re (serSeq se l ++ r) = some (l, r) := by
  simp only [readSeq, serSeq, List.append_assoc]
  rw [readNat_append 4 l.length _ hlen]
  simpa using readCount_append re l se r h

/-! ## Record types

The four persisted record types of `src/token/src/lib.rs` (lines
18–37). A Rust `HashMap` is modelled by its canonical entry list (the
key-sorted list borsh serializes); a `Pubkey` is its 32-byte content. -/

/-- A 32-byte public identifier. -/
abbrev PubkeyBytes := List Nat

/-- `ProposalsState { proposals: HashMap<u64, Vec<u8>> }`. -/
structure ProposalsState where
  proposals : List (Nat × List Nat)
  deriving DecidableEq, Repr

/-- `VotesState { votes: HashMap<u64, Vec<(Pubkey, bool)>> }`. -/
structure VotesState where
  votes : List (Nat × List (PubkeyBytes × Bool))
  deriving DecidableEq, Repr

/-- `BalancesState { balances: HashMap<Pubkey, u64> }`. -/
structure BalancesState where
  balances : List (PubkeyBytes × Nat)
  deriving DecidableEq, Repr

/-- `SystemState { halt: bool, insurance_pool: u64 }`. -/
structure SystemState where
  halt : Bool
  insurance_pool : Nat
  deriving DecidableEq, Repr

/-! ### Serializers (borsh `try_to_vec`) -/

/-- One proposal entry: `u64` key, then `Vec<u8>` payload
(`u32` length + bytes). -/
def serProposalEntry (e : Nat × List Nat) : List Nat :=
  leBytes 8 e.1 ++ leBytes 4 e.2.length ++ e.2

def serProposalsState (s : ProposalsState) : List Nat :=
  serSeq serProposalEntry s.proposals

/-- One vote pair: 32 `Pubkey` bytes, then a `bool` byte. -/
def serVotePair (p : PubkeyBytes × Bool) : List Nat := p.1 ++ serBool p.2

/-- One votes entry: `u64` key, then `Vec<(Pubkey, bool)>`. -/
def serVotesEntry (e : Nat × List (PubkeyBytes × Bool)) : List Nat :=
  leBytes 8 e.1 ++ serSeq serVotePair e.2

def serVotesState (s : VotesState) : List Nat :=
  serSeq serVotesEntry s.votes

/-- One balances entry: 32 `Pubkey` bytes, then a `u64` balance. -/
def serBalancesEntry (e : PubkeyBytes × Nat) : List Nat :=
  e.1 ++ leBytes 8 e.2

def serBalancesState (s : BalancesState) : List Nat :=
  serSeq serBalancesEntry s.balances

def serSystemState (s : SystemState) : List Nat :=
  serBool s.halt ++ leBytes 8 s.insurance_pool

/-! ### Readers (borsh `try_from_slice`, minus the all-bytes-consumed
check, which the region loaders apply) -/

def readProposalEntry (bs : List Nat) : Option ((Nat × List Nat) × List Nat) := do
  let (k, bs1) ← readNat 8 bs
  let (n, bs2) ← readNat 4 bs1
  let (v, bs3) ← readBytes n bs2
  some ((k, v), bs3)

def readProposalsState (bs : List Nat) : Option (ProposalsState × List Nat) :=
  (readSeq readProposalEntry bs).map fun p => (⟨p.1⟩, p.2)

def readVotePair (bs : List Nat) : Option ((PubkeyBytes × Bool) × List Nat) := do
  let (pk, bs1) ← readBytes 32 bs
  let (b, bs2) ← readBool bs1
  some ((pk, b), bs2)

def readVotesEntry (bs : List Nat) :
    Option ((Nat × List (PubkeyBytes × Bool)) × List Nat) := do
  let (k, bs1) ← readNat 8 bs
  let (v, bs2) ← readSeq readVotePair bs1
  some ((k, v), bs2)

def readVotesState (bs : List Nat) : Option (VotesState × List Nat) :=
  (readSeq readVotesEntry bs).map fun p => (⟨p.1⟩, p.2)

def readBalancesEntry (bs : List Nat) :
    Option ((PubkeyBytes × Nat) × List Nat) := do
  let (pk, bs1) ← readBytes 32 bs
  let (n, bs2) ← readNat 8 bs1
  some ((pk, n), bs2)

def readBalancesState (bs : List Nat) : Option (BalancesState × List Nat) :=
  (readSeq readBalancesEntry bs).map fun p => (⟨p.1⟩, p.2)

def readSystemState (bs : List Nat) : Option (SystemState × List Nat) := do
  let (h, bs1) ← readBool bs
  let (n, bs2) ← readNat 8 bs1
  some (⟨h, n⟩, bs2)

/-! ### Well-formedness

What it means for a modelled record to denote an actual Rust value:
`u64` fields below `2^64`, sequence lengths below `2^32` (their borsh
length prefix is a `u32`), payload bytes actual bytes, `Pubkey`s exactly
32 bytes, and map keys distinct (it is a `HashMap`). -/

def wfPubkey (pk : PubkeyBytes) : Prop :=
  pk.length = 32 ∧ ∀ b ∈ pk, b < 256

def wfProposals (s : ProposalsState) : Prop :=
  s.proposals.length < 256 ^ 4 ∧
  (s.proposals.map Prod.fst).Nodup ∧
  ∀ e ∈ s.proposals, e.1 < 256 ^ 8 ∧ e.2.length < 256 ^ 4 ∧ ∀ b ∈ e.2, b < 256

def wfVotes (s : VotesState) : Prop :=
  s.votes.length < 256 ^ 4 ∧
  (s.votes.map Prod.fst).Nodup ∧
  ∀ e ∈ s.votes, e.1 < 256 ^ 8 ∧ e.2.length < 256 ^ 4 ∧
    ∀ p ∈ e.2, wfPubkey p.1

def wfBalances (s : BalancesState) : Prop :=
  s.balances.length < 256 ^ 4 ∧
  (s.balances.map Prod.fst).Nodup ∧
  ∀ e ∈ s.balances, wfPubkey e.1 ∧ e.2 < 256 ^ 8

def wfSystem (s : SystemState) : Prop := s.insurance_pool < 256 ^ 8

instance (pk : PubkeyBytes) : Decidable (wfPubkey pk) := by
  unfold wfPubkey
  exact inferInstance

instance (s : ProposalsState) : Decidable (wfProposals s) := by
  unfold wfProposals
  exact inferInstance

instance (s : VotesState) : Decidable (wfVotes s) := by
  unfold wfVotes
  exact inferInstance

instance (s : BalancesState) : Decidable (wfBalances s) := by
  unfold wfBalances
  exact inferInstance

instance (s : SystemState) : Decidable (wfSystem s) := by
  unfold wfSystem
  exact inferInstance

/-! ### Record-level round trips -/

theorem readProposalEntry_ser (e : Nat × List Nat)
    (hk : e.1 < 256 ^ 8) (hv : e.2.length < 256 ^ 4) (rest : List Nat) :
    readProposalEntry (serProposalEntry e ++ rest) = some (e, rest) := by
  simp only [serProposalEntry, List.append_assoc, readProposalEntry]
  rw [readNat_append 8 e.1 _ hk]
  simp only [Option.bind_eq_bind, Option.some_bind]
  rw [readNat_append 4 e.2.length _ hv]
  simp only [Option.some_bind]
  rw [readBytes_append e.2.length e.2 rest rfl]
  simp

theorem readProposalsState_ser (s : ProposalsState) (hs : wfProposals s)
    (rest : List Nat) :
    readProposalsState (serProposalsState s ++ rest) = some (s, rest) := by
  obtain ⟨hlen, _, hent⟩ := hs
  simp only [readProposalsState, serProposalsState]
  rw [readSeq_serSeq readProposalEntry serProposalEntry s.proposals rest hlen
    (fun e he r => readProposalEntry_ser e (hent e he).1 (hent e he).2.1 r)]
  rfl

theorem readVotePair_ser (p : PubkeyBytes × Bool) (hp : wfPubkey p.1)
    (rest : List Nat) :
    readVotePair (serVotePair p ++ rest) = some (p, rest) := by
  simp only [serVotePair, List.append_assoc, readVotePair]
  rw [readBytes_append 32 p.1 _ hp.1]
  simp only [Option.bind_eq_bind, Option.some_bind]
  rw [readBool_serBool p.2 rest]
  rfl

theorem readVotesEntry_ser (e : Nat × List (PubkeyBytes × Bool))
    (hk : e.1 < 256 ^ 8) (hv : e.2.length < 256 ^ 4)
    (hp : ∀ p ∈ e.2, wfPubkey p.1) (rest : List Nat) :
    readVotesEntry (serVotesEntry e ++ rest) = some (e, rest) := by
  simp only [serVotesEntry, List.append_assoc, readVotesEntry]
  rw [readNat_append 8 e.1 _ hk]
  simp only [Option.bind_eq_bind, Option.some_bind]
  rw [readSeq_serSeq readVotePair serVotePair e.2 rest hv
    (fun p hmem r => readVotePair_ser p (hp p hmem) r)]
  rfl

theorem readVotesState_ser (s : VotesState) (hs : wfVotes s)
    (rest : List Nat) :
    readVotesState (serVotesState s ++ rest) = some (s, rest) := by
  obtain ⟨hlen, _, hent⟩ := hs
  simp only [readVotesState, serVotesState]
  rw [readSeq_serSeq readVotesEntry serVotesEntry s.votes rest hlen
    (fun e he r => readVotesEntry_ser e (hent e he).1 (hent e he).2.1 (hent e he).2.2 r)]
  rfl

theorem readBalancesEntry_ser (e : PubkeyBytes × Nat) (hp : wfPubkey e.1)
    (hn : e.2 < 256 ^ 8) (rest : List Nat) :
    readBalancesEntry (serBalancesEntry e ++ rest) = some (e, rest) := by
  simp only [serBalancesEntry, List.append_assoc, readBalancesEntry]
  rw [readBytes_append 32 e.1 _ hp.1]
  simp only [Option.bind_eq_bind, Option.some_bind]
  rw [readNat_append 8 e.2 _ hn]
  rfl

theorem readBalancesState_ser (s : BalancesState) (hs : wfBalances s)
    (rest : List Nat) :
    readBalancesState (serBalancesState s ++ rest) = some (s, rest) := by
  obtain ⟨hlen, _, hent⟩ := hs
  simp only [readBalancesState, serBalancesState]
  rw [readSeq_serSeq readBalancesEntry serBalancesEntry s.balances rest hlen
    (fun e he r => readBalancesEntry_ser e (hent e he).1 (hent e he).2 r)]
  rfl

theorem readSystemState_ser (s : SystemState) (hs : wfSystem s)
    (rest : List Nat) :
    readSystemState (serSystemState s ++ rest) = some (s, rest) := by
  simp only [serSystemState, List.append_assoc, readSystemState]
  rw [readBool_serBool s.halt]
  simp only [Option.bind_eq_bind, Option.some_bind]
  rw [readNat_append 8 s.insurance_pool _ hs]
  rfl

/-! ## The fixed-buffer region codec

`store_*_state` / `load_*_state` of the source (lines 39–225): a record
is serialized to the front of the region and its byte length is written
little-endian into the final 8 bytes.

`store_proposals_state` checks the capacity (`AccountDataTooSmall`)
before the payload-length plausibility (`InvalidAccountData`);
the votes/balances/system stores perform the same two checks in the
opposite order, and their first check computes `capacity - 8` with a
release-mode wrapping `usize` subtraction. -/

/-- Write `data` at offset 0 and `data.length` as the 8-byte
little-endian trailer, leaving the bytes in between untouched. -/
def writeRegion (r data : List Nat) : List Nat :=
  let r1 := data ++ r.drop data.length
  r1.take (r1.length - 8) ++ leBytes 8 data.length

/-- Store with the capacity check first (`store_proposals_state`). -/
def storeCapFirst (r data : List Nat) : Except ProgramError (List Nat) :=
  if r.length < data.length + 8 then .error .AccountDataTooSmall
  else if data.length = 0 ∨ data.length > r.length - 8 then
    .error .InvalidAccountData
  else .ok (writeRegion r data)

/-- Store with the payload-length check first
(`store_votes_state` / `store_balances_state` / `store_system_state`);
its `capacity - 8` is a wrapping `usize` subtraction. -/
def storeLenFirst (r data : List Nat) : Except ProgramError (List Nat) :=
  if data.length = 0 ∨ data.length > wrapSub64 r.length 8 then
    .error .InvalidAccountData
  else if r.length < data.length + 8 then .error .AccountDataTooSmall
  else .ok (writeRegion r data)

def store_proposals_state (r : List Nat) (s : ProposalsState) :
    Except ProgramError (List Nat) :=
  storeCapFirst r (serProposalsState s)

def store_votes_state (r : List Nat) (s : VotesState) :
    Except ProgramError (List Nat) :=
  storeLenFirst r (serVotesState s)

def store_balances_state (r : List Nat) (s : BalancesState) :
    Except ProgramError (List Nat) :=
  storeLenFirst r (serBalancesState s)

def store_system_state (r : List Nat) (s : SystemState) :
    Except ProgramError (List Nat) :=
  storeLenFirst r (serSystemState s)

/-- Shared load logic: read the trailer (rejecting an all-zero or
implausible length), then deserialize exactly `len` bytes from offset
0, requiring borsh to consume the whole slice. -/
def loadRegion {α : Type} (read : List Nat → Option (α × List Nat))
    (r : List Nat) : Except ProgramError α :=
  match checkedSub r.length 8 with
  | none => .error .InvalidAccountData
  | some pos =>
    let trailer := r.drop pos
    if trailer.all (· = 0) then .error .InvalidAccountData
    else
      let len := fromLE trailer
      if len = 0 ∨ len > pos then .error .InvalidAccountData
      else
        match read (r.take len) with
        | some (s, []) => .ok s
        | _ => .error .InvalidAccountData

def load_proposals_state (r : List Nat) : Except ProgramError ProposalsState :=
  loadRegion readProposalsState r

def load_votes_state (r : List Nat) : Except ProgramError VotesState :=
  loadRegion readVotesState r

def load_balances_state (r : List Nat) : Except ProgramError BalancesState :=
  loadRegion readBalancesState r

def load_system_state (r : List Nat) : Except ProgramError SystemState :=
  loadRegion readSystemState r

/-! ### Region round-trip lemmas -/

theorem length_writeRegion (r data : List Nat)
    (h : data.length + 8 ≤ r.length) :
    (writeRegion r data).length = r.length := by
  simp only [writeRegion, List.length_append, List.length_take,
    List.length_drop, length_leBytes]
  omega

/-- The trailer of a freshly written region is the length encoding. -/
theorem drop_writeRegion (r data : List Nat)
    (h : data.length + 8 ≤ r.length) :
    (writeRegion r data).drop (r.length - 8) = leBytes 8 data.length := by
  have hlen : (data ++ r.drop data.length).length = r.length := by
    simp only [List.length_append, List.length_drop]; omega
  simp only [writeRegion, hlen]
  exact List.drop_left' (by simp only [List.length_take, hlen]; omega)

/-- The payload prefix of a freshly written region is the data. -/
theorem take_writeRegion (r data : List Nat)
    (h : data.length + 8 ≤ r.length) :
    (writeRegion r data).take data.length = data := by
  have hlen : (data ++ r.drop data.length).length = r.length := by
    simp only [List.length_append, List.length_drop]; omega
  simp only [writeRegion, hlen]
  rw [List.take_append_of_le_length (by simp [List.length_take, hlen]; omega)]
  rw [List.take_take, min_eq_left (by omega)]
  exact List.take_left' rfl

/-- Generic region round trip: loading right after a write of `data`
parses `data` back (with nothing left over). -/
theorem loadRegion_writeRegion {α : Type}
    (read : List Nat → Option (α × List Nat)) (r data : List Nat) (a : α)
    (hcap : data.length + 8 ≤ r.length)
    (hpos : 1 ≤ data.length) (hlt : data.length < 256 ^ 8)
    (hread : read data = some (a, [])) :
    loadRegion read (writeRegion r data) = .ok a := by
  have hlen := length_writeRegion r data hcap
  have hdrop := drop_writeRegion r data hcap
  have htake := take_writeRegion r data hcap
  have hsub : checkedSub r.length 8 = some (r.length - 8) := by
    simp only [checkedSub, if_pos (by omega : 8 ≤ r.length)]
  simp only [loadRegion, hlen, hsub, hdrop]
  have hfrom : fromLE (leBytes 8 data.length) = data.length :=
    fromLE_leBytes 8 data.length hlt
  have hnz : ¬ (leBytes 8 data.length).all (· = 0) := by
    intro hall
    have : fromLE (leBytes 8 data.length) = 0 :=
      fromLE_eq_zero_of_all_zero _ (by simpa [List.all_eq_true] using hall)
    omega
  simp only [hnz, if_false, hfrom]
  have hrange : ¬ (data.length = 0 ∨ data.length > r.length - 8) := by
    push_neg; omega
  simp [hrange, htake, hread]
  constructor
  · intro hemp; rw [hemp] at hpos; simp at hpos
  · omega

/-- A capacity-first store succeeds whenever the region fits the
payload plus the 8-byte trailer (and the payload is nonempty). -/
theorem storeCapFirst_ok (r data : List Nat)
    (hcap : data.length + 8 ≤ r.length) (hpos : 1 ≤ data.length) :
    storeCapFirst r data = .ok (writeRegion r data) := by
  simp only [storeCapFirst]
  rw [if_neg (by omega), if_neg (by push_neg; omega)]

/-- A length-first store succeeds under the same conditions, provided
the capacity is a representable `usize` (so the wrapping subtraction
agrees with the true one). -/
theorem storeLenFirst_ok (r data : List Nat)
    (hcap : data.length + 8 ≤ r.length) (hpos : 1 ≤ data.length)
    (hphys : r.length < U64MOD) :
    storeLenFirst r data = .ok (writeRegion r data) := by
  have hphys' : r.length < 2 ^ 64 := hphys
  have hw : wrapSub64 r.length 8 = r.length - 8 := by
    simp only [wrapSub64, U64MOD]
    omega
  simp only [storeLenFirst, hw]
  have h1 : ¬(data.length = 0 ∨ data.length > r.length - 8) := by
    push_neg
    omega
  have h2 : ¬(r.length < data.length + 8) := by omega
  rw [if_neg h1, if_neg h2]

theorem pow256_8_eq : (256 : Nat) ^ 8 = 2 ^ 64 := by norm_num

/-- A borsh sequence encoding is at least its 4-byte length prefix. -/
theorem serSeq_length_ge {β : Type} (se : β → List Nat) (l : List β) :
    4 ≤ (serSeq se l).length := by
  simp [serSeq]

/-! ### Store-then-load round trips, per record type -/

theorem store_load_proposals (r : List Nat) (s : ProposalsState)
    (hs : wfProposals s)
    (hcap : (serProposalsState s).length + 8 ≤ r.length)
    (hphys : r.length < U64MOD) :
    store_proposals_state r s = .ok (writeRegion r (serProposalsState s)) ∧
    load_proposals_state (writeRegion r (serProposalsState s)) = .ok s := by
  have hpos : 1 ≤ (serProposalsState s).length := by
    have := serSeq_length_ge serProposalEntry s.proposals
    simp only [serProposalsState]; omega
  refine ⟨storeCapFirst_ok r _ hcap hpos, ?_⟩
  exact loadRegion_writeRegion readProposalsState r _ s hcap hpos
    (by rw [pow256_8_eq]; simp only [U64MOD] at hphys; omega)
    (by simpa using readProposalsState_ser s hs [])

theorem store_load_votes (r : List Nat) (s : VotesState)
    (hs : wfVotes s)
    (hcap : (serVotesState s).length + 8 ≤ r.length)
    (hphys : r.length < U64MOD) :
    store_votes_state r s = .ok (writeRegion r (serVotesState s)) ∧
    load_votes_state (writeRegion r (serVotesState s)) = .ok s := by
  have hpos : 1 ≤ (serVotesState s).length := by
    have := serSeq_length_ge serVotesEntry s.votes
    simp only [serVotesState]; omega
  refine ⟨storeLenFirst_ok r _ hcap hpos hphys, ?_⟩
  exact loadRegion_writeRegion readVotesState r _ s hcap hpos
    (by rw [pow256_8_eq]; simp only [U64MOD] at hphys; omega)
    (by simpa using readVotesState_ser s hs [])

theorem store_load_balances (r : List Nat) (s : BalancesState)
    (hs : wfBalances s)
    (hcap : (serBalancesState s).length + 8 ≤ r.length)
    (hphys : r.length < U64MOD) :
    store_balances_state r s = .ok (writeRegion r (serBalancesState s)) ∧
    load_balances_state (writeRegion r (serBalancesState s)) = .ok s := by
  have hpos : 1 ≤ (serBalancesState s).length := by
    have := serSeq_length_ge serBalancesEntry s.balances
    simp only [serBalancesState]; omega
  refine ⟨storeLenFirst_ok r _ hcap hpos hphys, ?_⟩
  exact loadRegion_writeRegion readBalancesState r _ s hcap hpos
    (by rw [pow256_8_eq]; simp only [U64MOD] at hphys; omega)
    (by simpa using readBalancesState_ser s hs [])

theorem store_load_system (r : List Nat) (s : SystemState)
    (hs : wfSystem s)
    (hcap : (serSystemState s).length + 8 ≤ r.length)
    (hphys : r.length < U64MOD) :
    store_system_state r s = .ok (writeRegion r (serSystemState s)) ∧
    load_system_state (writeRegion r (serSystemState s)) = .ok s := by
  have hpos : 1 ≤ (serSystemState s).length := by
    simp [serSystemState, serBool]
  refine ⟨storeLenFirst_ok r _ hcap hpos hphys, ?_⟩
  exact loadRegion_writeRegion readSystemState r _ s hcap hpos
    (by rw [pow256_8_eq]; simp only [U64MOD] at hphys; omega)
    (by simpa using readSystemState_ser s hs [])

/-! ## Token accounts

The fixed 41-byte token-account record and its `Pack` impl
(lines 246–290): 1 flag byte, 32 owner bytes, 8 amount bytes. -/

structure TokenAccount where
  is_initialized : Bool
  owner : PubkeyBytes
  amount : Nat
  deriving DecidableEq, Repr

/-- `pack_into_slice`'s byte image of an account. -/
def serTokenAccount (t : TokenAccount) : List Nat :=
  (if t.is_initialized then 1 else 0) :: (t.owner ++ leBytes 8 t.amount)

/-- `unpack_from_slice` / `Pack::unpack_unchecked`: reject any region
that is not exactly 41 bytes, then split it. -/
def TokenAccount.unpack_unchecked (src : List Nat) :
    Except ProgramError TokenAccount :=
  if src.length = 41 then
    match src with
    | b :: rest => .ok ⟨b ≠ 0, rest.take 32, fromLE (rest.drop 32)⟩
    | [] => .error .InvalidAccountData
  else .error .InvalidAccountData

/-- `Pack::unpack`: `unpack_unchecked` plus the `is_initialized`
check. -/
def TokenAccount.unpack (src : List Nat) : Except ProgramError TokenAccount :=
  match TokenAccount.unpack_unchecked src with
  | .error e => .error e
  | .ok t =>
    if t.is_initialized then .ok t else .error .UninitializedAccount

/-- `Pack::pack`: reject a destination that is not exactly 41 bytes,
then overwrite it with the account's byte image. -/
def TokenAccount.pack (t : TokenAccount) (dst : List Nat) :
    Except ProgramError (List Nat) :=
  if dst.length = 41 then .ok (serTokenAccount t)
  else .error .InvalidAccountData

/-! ## Accounts and authorization -/

/-- The per-invocation view of one host account: identity, host signer
and writability flags, and the data region. -/
structure AccountInfo where
  key : PubkeyBytes
  is_signer : Bool
  is_writable : Bool
  data : List Nat
  deriving DecidableEq, Repr

/-- `check_authorization` (lines 307–312). -/
def check_authorization (account : AccountInfo)
    (authorized_accounts : List PubkeyBytes) : Except ProgramError Unit :=
  if account.key ∈ authorized_accounts then .ok ()
  else .error DHelixError.Unauthorized.toProgramError

/-! ## Map helpers

Operations on the canonical entry lists standing in for the Rust
`HashMap`s. -/

/-- `HashMap::contains_key`. -/
def containsKey {α : Type} (l : List (Nat × α)) (k : Nat) : Bool :=
  l.any (·.1 == k)

/-- `HashMap::get`. -/
def lookupProposal (l : List (Nat × List Nat)) (k : Nat) :
    Option (List Nat) :=
  (l.find? (·.1 == k)).map (·.2)

/-- `HashMap::remove` on the canonical entry list. -/
def eraseProposal (l : List (Nat × List Nat)) (k : Nat) :
    List (Nat × List Nat) :=
  l.eraseP (·.1 == k)

/-- `HashMap::insert` on the canonical (key-sorted) entry list. -/
def insertProposal : List (Nat × List Nat) → Nat → List Nat →
    List (Nat × List Nat)
  | [], k, v => [(k, v)]
  | e :: rest, k, v =>
    if k < e.1 then (k, v) :: e :: rest
    else if k = e.1 then (k, v) :: rest
    else e :: insertProposal rest k v

/-- `balances.entry(k).or_insert(0)` followed by a wrapping
`*balance += r`. A missing key is appended; its canonical (key-sorted)
position is only observable through maps with several entries, which
the theorems below do not need. -/
def bumpBalance : List (PubkeyBytes × Nat) → PubkeyBytes → Nat →
    List (PubkeyBytes × Nat)
  | [], k, r => [(k, wrapAdd64 0 r)]
  | e :: rest, k, r =>
    if e.1 = k then (e.1, wrapAdd64 e.2 r) :: rest
    else e :: bumpBalance rest k r

/-- `accounts.iter().find(|acc| acc.key == &key)`. -/
def findAccount (accounts : List AccountInfo) (key : PubkeyBytes) :
    Option AccountInfo :=
  accounts.find? (·.key == key)

/-- Overwrite the data of the first account carrying `key` (the account
`find` located; writing through its `RefCell` mutates that account in
the shared list). -/
def setDataFirst : List AccountInfo → PubkeyBytes → List Nat →
    List AccountInfo
  | [], _, _ => []
  | a :: rest, key, d =>
    if a.key == key then { a with data := d } :: rest
    else a :: setDataFirst rest key d

/-! ## DHelixToken ledger operations -/

/-- The destination-account mutation of `mint` (lines 337–340):
`unpack_unchecked`, checked add, `pack`. -/
def mintUpdate (data : List Nat) (amount : Nat) :
    Except ProgramError (List Nat) :=
  match TokenAccount.unpack_unchecked data with
  | .error e => .error e
  | .ok t =>
    match checkedAdd t.amount amount with
    | none => .error DHelixError.OverflowError.toProgramError
    | some a => TokenAccount.pack { t with amount := a } data

/-- `DHelixToken::mint` (lines 315–347). -/
def mint (accounts : List AccountInfo) (amount : Nat)
    (authorized_accounts : List PubkeyBytes) :
    Except ProgramError (List AccountInfo) :=
  match accounts with
  | mint_account :: destination_account :: state_account :: rest =>
    if mint_account.key ∉ authorized_accounts then
      .error DHelixError.Unauthorized.toProgramError
    else if ¬ mint_account.is_signer then .error .MissingRequiredSignature
    else if ¬ destination_account.is_writable then
      .error DHelixError.InvalidDestinationAccount.toProgramError
    else
      match mintUpdate destination_account.data amount with
      | .error e => .error e
      | .ok d =>
        .ok (mint_account :: { destination_account with data := d } ::
          state_account :: rest)
  | _ => .error .NotEnoughAccountKeys

/-- The two-account mutation of `transfer` (lines 371–395):
`unpack_unchecked` both, explicit initialization checks, funds check,
checked sub/add, `pack` both. -/
def transferUpdate (sd dd : List Nat) (amount : Nat) :
    Except ProgramError (List Nat × List Nat) :=
  match TokenAccount.unpack_unchecked sd with
  | .error e => .error e
  | .ok s =>
    match TokenAccount.unpack_unchecked dd with
    | .error e => .error e
    | .ok d =>
      if ¬ s.is_initialized then .error .UninitializedAccount
      else if ¬ d.is_initialized then .error .UninitializedAccount
      else if s.amount < amount then
        .error DHelixError.InsufficientFunds.toProgramError
      else
        match checkedSub s.amount amount with
        | none => .error DHelixError.UnderflowError.toProgramError
        | some s' =>
          match checkedAdd d.amount amount with
          | none => .error DHelixError.OverflowError.toProgramError
          | some d' =>
            match TokenAccount.pack { s with amount := s' } sd with
            | .error e => .error e
            | .ok nsd =>
              match TokenAccount.pack { d with amount := d' } dd with
              | .error e => .error e
              | .ok ndd => .ok (nsd, ndd)

/-- `DHelixToken::transfer` (lines 349–403). -/
def transfer (accounts : List AccountInfo) (amount : Nat)
    (authorized_accounts : List PubkeyBytes) :
    Except ProgramError (List AccountInfo) :=
  match accounts with
  | source_account :: destination_account :: state_account :: rest =>
    if source_account.key ∉ authorized_accounts then
      .error DHelixError.Unauthorized.toProgramError
    else if ¬ source_account.is_signer then .error .MissingRequiredSignature
    else if ¬ source_account.is_writable ∨ ¬ destination_account.is_writable
    then .error DHelixError.InvalidDestinationAccount.toProgramError
    else
      match transferUpdate source_account.data destination_account.data
          amount with
      | .error e => .error e
      | .ok (nsd, ndd) =>
        .ok ({ source_account with data := nsd } ::
          { destination_account with data := ndd } :: state_account :: rest)
  | _ => .error .NotEnoughAccountKeys

/-- `DHelixToken::multisig` (lines 451–490): the first account is the
primary (checked for authorization / signer / writability), the second
is a state account, and the remaining accounts' signer flags are
counted into a `u8` starting from 1 (release-mode wrapping). -/
def multisig (accounts : List AccountInfo) (required_signatures : Nat)
    (authorized_accounts : List PubkeyBytes) : Except ProgramError Unit :=
  if accounts.length < 3 then .error .NotEnoughAccountKeys
  else
    match accounts with
    | multisig_account :: _state_account :: rest =>
      if multisig_account.key ∉ authorized_accounts then
        .error DHelixError.Unauthorized.toProgramError
      else if ¬ multisig_account.is_signer then
        .error .MissingRequiredSignature
      else if ¬ multisig_account.is_writable then
        .error DHelixError.InvalidDestinationAccount.toProgramError
      else
        let signature_count := (1 + rest.countP (·.is_signer)) % 256
        if signature_count < required_signatures then
          .error DHelixError.Unauthorized.toProgramError
        else .ok ()
    | _ => .error .NotEnoughAccountKeys

/-- `dynamic_staking_rewards` (lines 801–828): the reward is
`staking_duration * 5` with a release-mode wrapping multiply, and the
balance bump is a wrapping `+=`. -/
def dynamic_staking_rewards (accounts : List AccountInfo)
    (staking_duration : Nat) : Except ProgramError (List AccountInfo) :=
  match accounts with
  | staker_account :: balances_state_account :: rest =>
    if ¬ staker_account.is_signer then .error .MissingRequiredSignature
    else
      match load_balances_state balances_state_account.data with
      | .error e => .error e
      | .ok st =>
        let reward_amount := wrapMul64 staking_duration 5
        let st' : BalancesState :=
          ⟨bumpBalance st.balances staker_account.key reward_amount⟩
        match store_balances_state balances_state_account.data st' with
        | .error e => .error e
        | .ok r =>
          .ok (staker_account :: { balances_state_account with data := r } ::
            rest)
  | _ => .error .NotEnoughAccountKeys

/-! ## DHelixDAO -/

/-- `DHelixDAO::submit_proposal` (lines 566–617). -/
def submit_proposal (accounts : List AccountInfo) (proposal_id : Nat)
    (proposal_data : List Nat) : Except ProgramError (List AccountInfo) :=
  match accounts with
  | proposer_account :: proposals_state_account :: rest =>
    if ¬ proposer_account.is_signer then .error .MissingRequiredSignature
    else if proposal_data.length > 1024 then .error .InvalidInstructionData
    else
      match load_proposals_state proposals_state_account.data with
      | .error e => .error e
      | .ok state =>
        if containsKey state.proposals proposal_id then
          .error .InvalidArgument
        else
          let state' : ProposalsState :=
            ⟨insertProposal state.proposals proposal_id proposal_data⟩
          match store_proposals_state proposals_state_account.data state' with
          | .error e => .error e
          | .ok r =>
            .ok (proposer_account ::
              { proposals_state_account with data := r } :: rest)
  | _ => .error .NotEnoughAccountKeys

/-! ### The proposal interpreter

`execute_proposal` (lines 645–712) can fail after having mutated token
regions only on its final `store_proposals_state` call, and it can
panic (out-of-bounds payload indexing); its outcome therefore carries
the account list as mutated so far, and panics get their own
constructor. -/

inductive ExecOutcome where
  | ok (accounts : List AccountInfo)
  | err (e : ProgramError) (accounts : List AccountInfo)
  | panicked (accounts : List AccountInfo)
  deriving DecidableEq, Repr

/-- The token-account mutation of the Mint opcode (lines 667–670):
`Pack::unpack` (initialization-checked), checked add, `pack`. -/
def execMintUpdate (data : List Nat) (amount : Nat) :
    Except ProgramError (List Nat) :=
  match TokenAccount.unpack data with
  | .error e => .error e
  | .ok t =>
    match checkedAdd t.amount amount with
    | none => .error DHelixError.OverflowError.toProgramError
    | some a => TokenAccount.pack { t with amount := a } data

/-- The two-account mutation of the Transfer opcode (lines 682–693):
`Pack::unpack` both (initialization-checked), funds check, checked
sub/add, `pack` both. The `pack` length checks are vacuous here (the
unpacks already forced both regions to 41 bytes), so computing both
packed images before the sequential region writes coincides with the
source's write-then-write order. -/
def execTransferUpdate (sd dd : List Nat) (amount : Nat) :
    Except ProgramError (List Nat × List Nat) :=
  match TokenAccount.unpack sd with
  | .error e => .error e
  | .ok s =>
    match TokenAccount.unpack dd with
    | .error e => .error e
    | .ok d =>
      if s.amount < amount then
        .error DHelixError.InsufficientFunds.toProgramError
      else
        match checkedSub s.amount amount with
        | none => .error DHelixError.UnderflowError.toProgramError
        | some s' =>
          match checkedAdd d.amount amount with
          | none => .error DHelixError.OverflowError.toProgramError
          | some d' =>
            match TokenAccount.pack { s with amount := s' } sd with
            | .error e => .error e
            | .ok nsd =>
              match TokenAccount.pack { d with amount := d' } dd with
              | .error e => .error e
              | .ok ndd => .ok (nsd, ndd)

/-- One interpreter step on a proposal payload (lines 664–700):
byte 0 selects the opcode, Mint reads an 8-byte amount and acts on the
third supplied account, Transfer reads an amount and two 32-byte
identities and acts on the accounts located by identity scan. Slice
expressions `data[1..9]`, `data[9..41]`, `data[41..73]` panic when the
payload is shorter. -/
def interpStep (accounts : List AccountInfo) (data : List Nat) :
    ExecOutcome :=
  match data.get? 0 with
  | none => .panicked accounts
  | some action =>
    if action = 0 then
      if data.length < 9 then .panicked accounts
      else
        let amount := fromLE ((data.drop 1).take 8)
        match accounts.get? 2 with
        | none => .err .NotEnoughAccountKeys accounts
        | some token_account =>
          match execMintUpdate token_account.data amount with
          | .error e => .err e accounts
          | .ok d =>
            .ok (accounts.set 2 { token_account with data := d })
    else if action = 1 then
      if data.length < 9 then .panicked accounts
      else if data.length < 41 then .panicked accounts
      else if data.length < 73 then .panicked accounts
      else
        let amount := fromLE ((data.drop 1).take 8)
        let source_key := (data.drop 9).take 32
        let destination_key := (data.drop 41).take 32
        match findAccount accounts source_key with
        | none => .err .InvalidAccountData accounts
        | some source_account =>
          match findAccount accounts destination_key with
          | none => .err .InvalidAccountData accounts
          | some destination_account =>
            match execTransferUpdate source_account.data
                destination_account.data amount with
            | .error e => .err e accounts
            | .ok (nsd, ndd) =>
              .ok (setDataFirst (setDataFirst accounts source_key nsd)
                destination_key ndd)
    else .err .InvalidInstructionData accounts

/-- `DHelixDAO::execute_proposal` (lines 645–712). -/
def execute_proposal (accounts : List AccountInfo) (proposal_id : Nat) :
    ExecOutcome :=
  match accounts with
  | executor_account :: proposals_state_account :: _token :: _state :: _rest =>
    if ¬ executor_account.is_signer then
      .err .MissingRequiredSignature accounts
    else
      match load_proposals_state proposals_state_account.data with
      | .error e => .err e accounts
      | .ok state =>
        match lookupProposal state.proposals proposal_id with
        | none => .err .InvalidInstructionData accounts
        | some data =>
          match interpStep accounts data with
          | .panicked accs => .panicked accs
          | .err e accs => .err e accs
          | .ok accs =>
            let state' : ProposalsState :=
              ⟨eraseProposal state.proposals proposal_id⟩
            match accs.get? 1 with
            | none => .err .NotEnoughAccountKeys accs
            | some psa =>
              match store_proposals_state psa.data state' with
              | .error e => .err e accs
              | .ok r => .ok (accs.set 1 { psa with data := r })
  | _ => .err .NotEnoughAccountKeys accounts

/-! ## Structural lemmas -/

theorem unpack_unchecked_ok (src : List Nat) (t : TokenAccount)
    (h : TokenAccount.unpack_unchecked src = .ok t) :
    src.length = 41 ∧ t.owner.length = 32 := by
  simp only [TokenAccount.unpack_unchecked] at h
  by_cases hl : src.length = 41
  · rw [if_pos hl] at h
    cases src with
    | nil => simp at hl
    | cons b rest =>
        simp only [Except.ok.injEq] at h
        subst h
        simp only [List.length_cons] at hl
        simp [List.length_take]
        omega
  · rw [if_neg hl] at h
    cases h

theorem unpack_ok (src : List Nat) (t : TokenAccount)
    (h : TokenAccount.unpack src = .ok t) :
    TokenAccount.unpack_unchecked src = .ok t ∧ t.is_initialized = true := by
  simp only [TokenAccount.unpack] at h
  cases hu : TokenAccount.unpack_unchecked src with
  | error e => rw [hu] at h; cases h
  | ok t' =>
      rw [hu] at h
      dsimp only at h
      by_cases hi : t'.is_initialized
      · rw [if_pos hi] at h
        cases h
        exact ⟨rfl, hi⟩
      · rw [if_neg hi] at h
        cases h

theorem length_serTokenAccount (t : TokenAccount) (h : t.owner.length = 32) :
    (serTokenAccount t).length = 41 := by
  simp [serTokenAccount, h]

theorem pack_ok (t : TokenAccount) (dst out : List Nat)
    (h : TokenAccount.pack t dst = .ok out) :
    dst.length = 41 ∧ out = serTokenAccount t := by
  simp only [TokenAccount.pack] at h
  by_cases hl : dst.length = 41
  · rw [if_pos hl] at h
    cases h
    exact ⟨hl, rfl⟩
  · rw [if_neg hl] at h
    cases h

/-- Inversion for a successful interpreter transfer core. -/
theorem execTransferUpdate_ok (sd dd : List Nat) (amount : Nat)
    (nsd ndd : List Nat)
    (h : execTransferUpdate sd dd amount = .ok (nsd, ndd)) :
    sd.length = 41 ∧ dd.length = 41 ∧ nsd.length = 41 ∧ ndd.length = 41 := by
  simp only [execTransferUpdate] at h
  cases hs : TokenAccount.unpack sd with
  | error e => rw [hs] at h; cases h
  | ok s =>
    rw [hs] at h
    dsimp only at h
    cases hd : TokenAccount.unpack dd with
    | error e => rw [hd] at h; cases h
    | ok d =>
      rw [hd] at h
      dsimp only at h
      by_cases hlt : s.amount < amount
      · rw [if_pos hlt] at h; cases h
      · rw [if_neg hlt] at h
        cases hsub : checkedSub s.amount amount with
        | none => rw [hsub] at h; cases h
        | some s' =>
          rw [hsub] at h
          dsimp only at h
          cases hadd : checkedAdd d.amount amount with
          | none => rw [hadd] at h; cases h
          | some d' =>
            rw [hadd] at h
            dsimp only at h
            cases hp1 : TokenAccount.pack { s with amount := s' } sd with
            | error e => rw [hp1] at h; cases h
            | ok v1 =>
              rw [hp1] at h
              dsimp only at h
              cases hp2 : TokenAccount.pack { d with amount := d' } dd with
              | error e => rw [hp2] at h; cases h
              | ok v2 =>
                rw [hp2] at h
                simp only [Except.ok.injEq, Prod.mk.injEq] at h
                obtain ⟨h1, h2⟩ := h
                subst h1; subst h2
                obtain ⟨hsd, hser1⟩ := pack_ok _ _ _ hp1
                obtain ⟨hdd, hser2⟩ := pack_ok _ _ _ hp2
                obtain ⟨-, hso⟩ :=
                  unpack_unchecked_ok _ _ (unpack_ok _ _ hs).1
                obtain ⟨-, hdo⟩ :=
                  unpack_unchecked_ok _ _ (unpack_ok _ _ hd).1
                refine ⟨hsd, hdd, ?_, ?_⟩
                · rw [hser1]; exact length_serTokenAccount _ hso
                · rw [hser2]; exact length_serTokenAccount _ hdo

@[simp] theorem length_setDataFirst (accs : List AccountInfo)
    (key : PubkeyBytes) (d : List Nat) :
    (setDataFirst accs key d).length = accs.length := by
  induction accs with
  | nil => rfl
  | cons a rest ih =>
      simp only [setDataFirst]
      by_cases h : a.key == key
      · simp [h]
      · simp [h, ih]

/-- `setDataFirst` rewrites the data of exactly the account `find`
locates (if any), leaving every other position untouched. -/
theorem get?_setDataFirst (accs : List AccountInfo) (key : PubkeyBytes)
    (d : List Nat) (i : Nat) :
    (setDataFirst accs key d).get? i = accs.get? i ∨
    ∃ a, accs.get? i = some a ∧ a.key = key ∧
      findAccount accs key = some a ∧
      (setDataFirst accs key d).get? i = some { a with data := d } := by
  induction accs generalizing i with
  | nil => left; rfl
  | cons a rest ih =>
      by_cases h : a.key = key
      · have hb : (a.key == key) = true := by simp [h]
        cases i with
        | zero =>
            right
            exact ⟨a, rfl, h, by simp [findAccount, List.find?, hb],
              by simp [setDataFirst, hb]⟩
        | succ i =>
            left
            simp [setDataFirst, hb]
      · have hb : (a.key == key) = false := by simp [h]
        cases i with
        | zero =>
            left
            simp [setDataFirst, hb]
        | succ i =>
            rcases ih i with hl | ⟨a', h1, h2, h3, h4⟩
            · left; simpa [setDataFirst, hb] using hl
            · right
              exact ⟨a', by simpa using h1, h2,
                by simp [findAccount, List.find?, hb] at h3 ⊢;
                   simpa [findAccount] using h3,
                by simpa [setDataFirst, hb] using h4⟩

/-- Locating a key after a `setDataFirst` of the same key. -/
theorem findAccount_setDataFirst_same (accs : List AccountInfo)
    (key : PubkeyBytes) (d : List Nat) :
    findAccount (setDataFirst accs key d) key =
      (findAccount accs key).map fun a => { a with data := d } := by
  induction accs with
  | nil => rfl
  | cons a rest ih =>
      by_cases h : a.key = key
      · have hb : (a.key == key) = true := by simp [h]
        simp [setDataFirst, findAccount, List.find?, hb]
      · have hb : (a.key == key) = false := by simp [h]
        simp only [setDataFirst, hb, if_false, Bool.false_eq_true]
        simp only [findAccount, List.find?, hb] at ih ⊢
        exact ih

/-- Locating a different key after a `setDataFirst`. -/
theorem findAccount_setDataFirst_other (accs : List AccountInfo)
    (skey dkey : PubkeyBytes) (d : List Nat) (hne : skey ≠ dkey) :
    findAccount (setDataFirst accs skey d) dkey = findAccount accs dkey := by
  induction accs with
  | nil => rfl
  | cons a rest ih =>
      by_cases h : a.key = skey
      · have hb : (a.key == skey) = true := by simp [h]
        have hb2 : (a.key == dkey) = false := by
          simp [h]; exact hne
        simp [setDataFirst, findAccount, List.find?, hb, hb2]
      · have hb : (a.key == skey) = false := by simp [h]
        by_cases h2 : a.key = dkey
        · have hb2 : (a.key == dkey) = true := by simp [h2]
          simp [setDataFirst, findAccount, List.find?, hb, hb2]
        · have hb2 : (a.key == dkey) = false := by simp [h2]
          simp only [setDataFirst, hb, if_false, Bool.false_eq_true]
          simp only [findAccount, List.find?, hb2] at ih ⊢
          exact ih

/-- Every error exit of the interpreter step precedes its region
writes, so a failing step leaves the account list untouched. (The only
write-then-fail paths in the source are the `pack` length checks of
the Transfer opcode, which are vacuous because the matching `unpack`s
already forced both regions to 41 bytes.) -/
theorem interpStep_err_unchanged (accounts : List AccountInfo)
    (data : List Nat) (e : ProgramError) (accs : List AccountInfo)
    (h : interpStep accounts data = .err e accs) : accs = accounts := by
  unfold interpStep at h
  cases h0 : data.get? 0 with
  | none => rw [h0] at h; cases h
  | some action =>
    rw [h0] at h
    dsimp only at h
    by_cases ha0 : action = 0
    · rw [if_pos ha0] at h
      by_cases h9 : data.length < 9
      · rw [if_pos h9] at h; cases h
      · rw [if_neg h9] at h
        cases h2 : accounts.get? 2 with
        | none => rw [h2] at h; cases h; rfl
        | some tok =>
          rw [h2] at h
          dsimp only at h
          cases hm : execMintUpdate tok.data (fromLE ((data.drop 1).take 8))
            with
          | error e2 => rw [hm] at h; cases h; rfl
          | ok d => rw [hm] at h; dsimp only at h; cases h
    · rw [if_neg ha0] at h
      by_cases ha1 : action = 1
      · rw [if_pos ha1] at h
        by_cases h9 : data.length < 9
        · rw [if_pos h9] at h; cases h
        · rw [if_neg h9] at h
          by_cases h41 : data.length < 41
          · rw [if_pos h41] at h; cases h
          · rw [if_neg h41] at h
            by_cases h73 : data.length < 73
            · rw [if_pos h73] at h; cases h
            · rw [if_neg h73] at h
              cases hfs : findAccount accounts ((data.drop 9).take 32) with
              | none => rw [hfs] at h; cases h; rfl
              | some src =>
                rw [hfs] at h
                dsimp only at h
                cases hfd : findAccount accounts ((data.drop 41).take 32)
                  with
                | none => rw [hfd] at h; cases h; rfl
                | some dst =>
                  rw [hfd] at h
                  dsimp only at h
                  cases ht : execTransferUpdate src.data dst.data
                      (fromLE ((data.drop 1).take 8)) with
                  | error e2 => rw [ht] at h; cases h; rfl
                  | ok p =>
                    rw [ht] at h
                    obtain ⟨nsd, ndd⟩ := p
                    dsimp only at h
                    cases h
      · rw [if_neg ha1] at h; cases h; rfl

/-- A successful interpreter step keeps an account at position 1 (the
proposal-table account) with a data region of unchanged length: the
only writes are `pack`s of 41-byte images over regions that
`unpack`ed as 41 bytes. -/
theorem interpStep_ok_get1 (accounts accs1 : List AccountInfo)
    (data : List Nat) (psa : AccountInfo)
    (hpsa : accounts.get? 1 = some psa)
    (h : interpStep accounts data = .ok accs1) :
    ∃ psa1, accs1.get? 1 = some psa1 ∧
      psa1.data.length = psa.data.length := by
  unfold interpStep at h
  cases h0 : data.get? 0 with
  | none => rw [h0] at h; cases h
  | some action =>
    rw [h0] at h
    dsimp only at h
    by_cases ha0 : action = 0
    · rw [if_pos ha0] at h
      by_cases h9 : data.length < 9
      · rw [if_pos h9] at h; cases h
      · rw [if_neg h9] at h
        cases h2 : accounts.get? 2 with
        | none => rw [h2] at h; cases h
        | some tok =>
          rw [h2] at h
          dsimp only at h
          cases hm : execMintUpdate tok.data (fromLE ((data.drop 1).take 8))
            with
          | error e => rw [hm] at h; cases h
          | ok d =>
            rw [hm] at h
            dsimp only at h
            cases h
            refine ⟨psa, ?_, rfl⟩
            rw [List.get?_set_ne _ _ (by omega)]
            exact hpsa
    · rw [if_neg ha0] at h
      by_cases ha1 : action = 1
      · rw [if_pos ha1] at h
        by_cases h9 : data.length < 9
        · rw [if_pos h9] at h; cases h
        · rw [if_neg h9] at h
          by_cases h41 : data.length < 41
          · rw [if_pos h41] at h; cases h
          · rw [if_neg h41] at h
            by_cases h73 : data.length < 73
            · rw [if_pos h73] at h; cases h
            · rw [if_neg h73] at h
              cases hfs : findAccount accounts ((data.drop 9).take 32) with
              | none => rw [hfs] at h; cases h
              | some src =>
                rw [hfs] at h
                dsimp only at h
                cases hfd : findAccount accounts ((data.drop 41).take 32)
                  with
                | none => rw [hfd] at h; cases h
                | some dst =>
                  rw [hfd] at h
                  dsimp only at h
                  cases ht : execTransferUpdate src.data dst.data
                      (fromLE ((data.drop 1).take 8)) with
                  | error e => rw [ht] at h; cases h
                  | ok p =>
                    rw [ht] at h
                    obtain ⟨nsd, ndd⟩ := p
                    dsimp only at h
                    cases h
                    obtain ⟨hsd41, hdd41, hnsd41, hndd41⟩ :=
                      execTransferUpdate_ok _ _ _ _ _ ht
                    -- the account at position 1 after the source write
                    have hstepA : ∃ psa2,
                        (setDataFirst accounts ((data.drop 9).take 32)
                          nsd).get? 1 = some psa2 ∧
                        psa2.data.length = psa.data.length := by
                      rcases get?_setDataFirst accounts
                          ((data.drop 9).take 32) nsd 1 with hA |
                          ⟨a, ha1, hakey, hafind, ha2⟩
                      · exact ⟨psa, by rw [hA]; exact hpsa, rfl⟩
                      · rw [hpsa] at ha1
                        cases ha1
                        rw [hfs] at hafind
                        cases hafind
                        refine ⟨_, ha2, ?_⟩
                        simpa [hnsd41] using hsd41.symm
                    obtain ⟨psa2, hget2, hlen2⟩ := hstepA
                    -- the destination write
                    rcases get?_setDataFirst
                        (setDataFirst accounts ((data.drop 9).take 32) nsd)
                        ((data.drop 41).take 32) ndd 1 with hB |
                        ⟨a', hb1, hbkey, hbfind, hb2⟩
                    · exact ⟨psa2, by rw [hB]; exact hget2, hlen2⟩
                    · rw [hget2] at hb1
                      cases hb1
                      refine ⟨_, hb2, ?_⟩
                      -- the rewritten account had a 41-byte region
                      have ha41 : psa2.data.length = 41 := by
                        by_cases hkey :
                            ((data.drop 9).take 32 : List Nat) =
                            (data.drop 41).take 32
                        · rw [hkey, findAccount_setDataFirst_same,
                            ← hkey, hfs] at hbfind
                          cases hbfind
                          simpa using hnsd41
                        · rw [findAccount_setDataFirst_other _ _ _ _ hkey,
                            hfd] at hbfind
                          cases hbfind
                          exact hdd41
                      simp only []
                      rw [← hlen2, ha41, hndd41]
      · rw [if_neg ha1] at h; cases h

/-! ## Lemmas about proposal removal (for `execute_proposal`) -/

theorem flatten_eraseP_length_le (l : List (Nat × List Nat))
    (p : (Nat × List Nat) → Bool) :
    ((l.eraseP p).map serProposalEntry).flatten.length ≤
    (l.map serProposalEntry).flatten.length := by
  induction l with
  | nil => simp
  | cons e rest ih =>
      cases hp : p e with
      | true =>
          simp only [List.eraseP_cons, hp, cond_true, List.map_cons,
            List.flatten_cons, List.length_append]
          omega
      | false =>
          simp only [List.eraseP_cons, hp, cond_false, List.map_cons,
            List.flatten_cons, List.length_append]
          omega

/-- Removing a proposal never lengthens the table encoding. -/
theorem serProposals_erase_le (l : List (Nat × List Nat)) (pid : Nat) :
    (serProposalsState ⟨eraseProposal l pid⟩).length ≤
    (serProposalsState ⟨l⟩).length := by
  simp only [serProposalsState, serSeq, eraseProposal, List.length_append,
    length_leBytes]
  have := flatten_eraseP_length_le l (·.1 == pid)
  omega

/-- Removing a proposal preserves table well-formedness. -/
theorem wfProposals_erase (T : ProposalsState) (pid : Nat)
    (h : wfProposals T) :
    wfProposals ⟨eraseProposal T.proposals pid⟩ := by
  obtain ⟨hlen, hnd, hent⟩ := h
  have hsub : List.Sublist (eraseProposal T.proposals pid) T.proposals :=
    List.eraseP_sublist _
  refine ⟨?_, ?_, ?_⟩
  · exact lt_of_le_of_lt (List.Sublist.length_le hsub) hlen
  · exact (hsub.map Prod.fst).nodup hnd
  · intro e he
    exact hent e (hsub.mem he)

/-- With distinct keys, removing a proposal id actually removes it. -/
theorem containsKey_erase (l : List (Nat × List Nat)) (pid : Nat)
    (hnd : (l.map Prod.fst).Nodup) :
    containsKey (eraseProposal l pid) pid = false := by
  induction l with
  | nil => rfl
  | cons e rest ih =>
      simp only [List.map_cons, List.nodup_cons] at hnd
      by_cases hp : e.1 = pid
      · have hb : (e.1 == pid) = true := by simp [hp]
        simp only [eraseProposal, List.eraseP_cons, hb, cond_true,
          containsKey]
        rw [List.any_eq_false]
        intro x hx
        simp only [beq_iff_eq]
        intro hxe
        refine hnd.1 ?_
        rw [hp, ← hxe]
        exact List.mem_map_of_mem Prod.fst hx
      · have hb : (e.1 == pid) = false := by simp [hp]
        simp only [eraseProposal, List.eraseP_cons, hb, cond_false,
          containsKey, List.any_cons, hb, Bool.false_or]
        simpa [eraseProposal, containsKey] using ih hnd.2

/-! ## Sample identities for concrete scenarios -/

def pkA : PubkeyBytes := List.replicate 32 1
def pkB : PubkeyBytes := List.replicate 32 2
def pkC : PubkeyBytes := List.replicate 32 3
def pkD : PubkeyBytes := List.replicate 32 4

/-! ## Claims -/

/-- C10. The spec's lifecycle invariant says the first meaningful write
to a freshly zeroed token region — in particular a successful mint —
must leave `initialized = true`. The code's `mint` uses
`unpack_unchecked` and packs the flag back unchanged: minting 100
tokens into a zeroed 41-byte region succeeds yet leaves the
initialized byte 0, so the resulting account still reads back as
uninitialized. -/
theorem mint_leaves_uninitialized :
    mint [⟨pkA, true, true, []⟩, ⟨pkB, false, true, List.replicate 41 0⟩,
        ⟨pkC, false, false, []⟩] 100 [pkA] =
      .ok [⟨pkA, true, true, []⟩,
        ⟨pkB, false, true, 0 :: (List.replicate 32 0 ++ leBytes 8 100)⟩,
        ⟨pkC, false, false, []⟩] ∧
    TokenAccount.unpack_unchecked
        (0 :: (List.replicate 32 0 ++ leBytes 8 100)) =
      .ok ⟨false, List.replicate 32 0, 100⟩ := by
  constructor <;> decide

/-- C4 counterexample. The direct mint path (`unpack_unchecked`) and
the proposal-triggered mint path (`Pack::unpack`) disagree on an
uninitialized token account: the direct path succeeds, the proposal
path fails with `UninitializedAccount`. -/
theorem proposal_mint_uninitialized_cex :
    mintUpdate (List.replicate 41 0) 5 =
      .ok (0 :: (List.replicate 32 0 ++ leBytes 8 5)) ∧
    execMintUpdate (List.replicate 41 0) 5 =
      .error .UninitializedAccount := by
  constructor <;> decide

/-- C6 counterexample. `store_votes_state` performs the payload-length
plausibility check before the capacity check; on a 10-byte region an
empty `VotesState` (4 encoded bytes, so capacity 10 < 4 + 8) fails
with `InvalidAccountData`, not the claimed
`RegionTooSmall`/`AccountDataTooSmall`. -/
theorem store_votes_len_check_cex :
    store_votes_state (List.replicate 10 0) ⟨[]⟩ =
      .error .InvalidAccountData ∧
    (serVotesState ⟨[]⟩).length + 8 > (List.replicate 10 (0 : Nat)).length ∧
    ProgramError.InvalidAccountData ≠ ProgramError.AccountDataTooSmall := by
  refine ⟨by decide, by decide, by decide⟩

/-- C9 counterexample. The claim's first scenario — `multisig` with
`required = 2` on exactly `[primary (signer), other (not signer)]` /
`[primary (signer), other (signer)]` — never reaches the signer count:
the code requires at least three accounts and fails with
`NotEnoughAccountKeys`. And with a state account added, the second
supplied identity is skipped by the counting loop, so
`[primary (signer), other (signer), third (not signer)]` has claimed
count 2 but fails `Unauthorized` (`Custom 4`). -/
theorem multisig_two_accounts_cex :
    multisig [⟨pkA, true, true, []⟩, ⟨pkB, true, false, []⟩] 2 [pkA] =
      .error .NotEnoughAccountKeys ∧
    multisig [⟨pkA, true, true, []⟩, ⟨pkB, true, false, []⟩,
        ⟨pkC, false, false, []⟩] 2 [pkA] =
      .error (.Custom 4) := by
  constructor <;> decide

/-- C1 counterexample. All of the claim's preconditions hold — both
accounts initialized and writable, the source an authorized signer with
`source.amount = 1 ≥ delta = 1` — yet `transfer` does not credit the
destination: its balance is `2^64 - 1`, the checked add wraps, and the
call fails with `OverflowError` (`Custom 2`). -/
theorem transfer_dest_overflow_cex :
    transfer [⟨pkA, true, true, serTokenAccount ⟨true, pkA, 1⟩⟩,
        ⟨pkB, false, true, serTokenAccount ⟨true, pkB, 2 ^ 64 - 1⟩⟩,
        ⟨pkC, false, false, []⟩] 1 [pkA] =
      .error (.Custom 2) ∧
    TokenAccount.unpack_unchecked (serTokenAccount ⟨true, pkA, 1⟩) =
      .ok ⟨true, pkA, 1⟩ ∧
    TokenAccount.unpack_unchecked (serTokenAccount ⟨true, pkB, 2 ^ 64 - 1⟩) =
      .ok ⟨true, pkB, 2 ^ 64 - 1⟩ := by
  refine ⟨by decide, by decide, by decide⟩

/-- The balances region used in the staking-reward scenario: empty
`BalancesState` persisted into a fresh 52-byte region. -/
def stakeRegion0 : List Nat :=
  writeRegion (List.replicate 52 0) (serBalancesState ⟨[]⟩)

/-- The same region after the wrapped staking reward is credited. -/
def stakeRegion1 : List Nat :=
  writeRegion stakeRegion0 (serBalancesState ⟨[(pkA, 2 ^ 62)]⟩)

/-- C2. `dynamic_staking_rewards` computes
`reward_amount = staking_duration * 5` with an unchecked (release-mode
wrapping) multiply and credits it with an unchecked `+=`: at
`staking_duration = 2^62` the product `5 * 2^62 ≥ 2^64` wraps to
`2^62`, and the call succeeds, persisting the wrapped balance instead
of failing with `OverflowError` as the spec's checked-arithmetic rule
requires. -/
theorem staking_rewards_wrapping_bug :
    dynamic_staking_rewards
        [⟨pkA, true, false, []⟩, ⟨pkB, false, true, stakeRegion0⟩]
        (2 ^ 62) =
      .ok [⟨pkA, true, false, []⟩, ⟨pkB, false, true, stakeRegion1⟩] ∧
    load_balances_state stakeRegion1 = .ok ⟨[(pkA, 2 ^ 62)]⟩ ∧
    2 ^ 64 ≤ 2 ^ 62 * 5 ∧ wrapMul64 (2 ^ 62) 5 = 2 ^ 62 := by
  refine ⟨by decide, by decide, by norm_num, by decide⟩

/-- The proposal table holding id 1 with an empty payload, persisted
into a fresh 24-byte region, and the account list for executing it. -/
def emptyPayloadTable : ProposalsState := ⟨[(1, [])]⟩

def emptyPayloadRegion : List Nat :=
  writeRegion (List.replicate 24 0) (serProposalsState emptyPayloadTable)

def emptyPayloadAccounts : List AccountInfo :=
  [⟨pkA, true, true, []⟩, ⟨pkB, false, true, emptyPayloadRegion⟩,
   ⟨pkC, false, true, List.replicate 41 0⟩, ⟨pkD, false, false, []⟩]

/-- C8. `submit_proposal` accepts any payload of length ≤ 1024,
including the empty one, but `execute_proposal` indexes `data[0]`
unconditionally: on a stored proposal with empty payload the decode
reads out of bounds and the program panics instead of returning an
error (the unused `safe_array_access` helper shows the intended
behavior). -/
theorem execute_proposal_empty_payload_panics :
    execute_proposal emptyPayloadAccounts 1 =
      .panicked emptyPayloadAccounts ∧
    lookupProposal emptyPayloadTable.proposals 1 = some [] ∧
    ([] : List Nat).length ≤ 1024 := by
  refine ⟨by decide, by decide, by decide⟩

/-- C3. Round trip: for every well-formed record of each of the four
record types and every region whose capacity covers the encoding plus
the 8 trailer bytes, loading right after a successful store returns a
record equal to the stored one. -/
theorem store_load_roundtrip
    (p : ProposalsState) (v : VotesState) (b : BalancesState)
    (s : SystemState) (rp rv rb rs : List Nat)
    (hp : wfProposals p) (hv : wfVotes v) (hb : wfBalances b)
    (hs : wfSystem s)
    (hcp : (serProposalsState p).length + 8 ≤ rp.length)
    (hcv : (serVotesState v).length + 8 ≤ rv.length)
    (hcb : (serBalancesState b).length + 8 ≤ rb.length)
    (hcs : (serSystemState s).length + 8 ≤ rs.length)
    (hpp : rp.length < U64MOD) (hpv : rv.length < U64MOD)
    (hpb : rb.length < U64MOD) (hps : rs.length < U64MOD) :
    (∀ r, store_proposals_state rp p = .ok r →
      load_proposals_state r = .ok p) ∧
    (∀ r, store_votes_state rv v = .ok r → load_votes_state r = .ok v) ∧
    (∀ r, store_balances_state rb b = .ok r →
      load_balances_state r = .ok b) ∧
    (∀ r, store_system_state rs s = .ok r → load_system_state r = .ok s) := by
  refine ⟨fun r hr => ?_, fun r hr => ?_, fun r hr => ?_, fun r hr => ?_⟩
  · obtain ⟨h1, h2⟩ := store_load_proposals rp p hp hcp hpp
    rw [h1] at hr; cases hr; exact h2
  · obtain ⟨h1, h2⟩ := store_load_votes rv v hv hcv hpv
    rw [h1] at hr; cases hr; exact h2
  · obtain ⟨h1, h2⟩ := store_load_balances rb b hb hcb hpb
    rw [h1] at hr; cases hr; exact h2
  · obtain ⟨h1, h2⟩ := store_load_system rs s hs hcs hps
    rw [h1] at hr; cases hr; exact h2

theorem store_load_roundtrip_witness :
    load_proposals_state
        (writeRegion (List.replicate 20 0) (serProposalsState ⟨[]⟩)) =
      .ok ⟨[]⟩ ∧
    load_votes_state
        (writeRegion (List.replicate 20 0) (serVotesState ⟨[]⟩)) =
      .ok ⟨[]⟩ ∧
    load_balances_state
        (writeRegion (List.replicate 20 0) (serBalancesState ⟨[]⟩)) =
      .ok ⟨[]⟩ ∧
    load_system_state
        (writeRegion (List.replicate 20 0) (serSystemState ⟨true, 7⟩)) =
      .ok ⟨true, 7⟩ := by
  have h := store_load_roundtrip ⟨[]⟩ ⟨[]⟩ ⟨[]⟩ ⟨true, 7⟩
    (List.replicate 20 0) (List.replicate 20 0) (List.replicate 20 0)
    (List.replicate 20 0)
    (by decide) (by decide) (by decide) (by decide)
    (by decide) (by decide) (by decide) (by decide)
    (by decide) (by decide) (by decide) (by decide)
  exact ⟨h.1 _ (by decide), h.2.1 _ (by decide), h.2.2.1 _ (by decide),
    h.2.2.2 _ (by decide)⟩

/-! ### Store failure modes (C6) -/

theorem storeCapFirst_too_small (r data : List Nat)
    (h : r.length < data.length + 8) :
    storeCapFirst r data = .error .AccountDataTooSmall := by
  simp only [storeCapFirst]
  rw [if_pos h]

theorem storeLenFirst_mid (r data : List Nat) (h8 : 8 ≤ r.length)
    (hphys : r.length < U64MOD) (hcap : r.length < data.length + 8) :
    storeLenFirst r data = .error .InvalidAccountData := by
  have hphys' : r.length < 2 ^ 64 := hphys
  have hw : wrapSub64 r.length 8 = r.length - 8 := by
    simp only [wrapSub64, U64MOD]
    omega
  simp only [storeLenFirst, hw]
  rw [if_pos (Or.inr (by omega))]

theorem storeLenFirst_tiny (r data : List Nat) (hlt : r.length < 8)
    (hd1 : 1 ≤ data.length) (hdm : data.length + 8 ≤ U64MOD) :
    storeLenFirst r data = .error .AccountDataTooSmall := by
  have hdm' : data.length + 8 ≤ 2 ^ 64 := hdm
  have hw : data.length ≤ wrapSub64 r.length 8 := by
    simp only [wrapSub64, U64MOD]
    omega
  simp only [storeLenFirst]
  rw [if_neg (by push_neg; exact ⟨by omega, hw⟩), if_pos (by omega)]

/-- C6 (amended). When the region is too small for the encoding plus
the 8-byte trailer, `store_proposals_state` (capacity check first)
fails with `AccountDataTooSmall` at every such capacity, including
capacities below 8; but the votes/balances/system stores run the
payload-plausibility check first over a wrapping `capacity - 8`, so
they fail with `InvalidAccountData` whenever `8 ≤ capacity`, and with
`AccountDataTooSmall` only for `capacity < 8`. -/
theorem store_too_small_errors
    (p : ProposalsState) (v : VotesState) (b : BalancesState)
    (s : SystemState) (rp rv rb rs : List Nat)
    (hcp : rp.length < (serProposalsState p).length + 8)
    (hcv : rv.length < (serVotesState v).length + 8)
    (hcb : rb.length < (serBalancesState b).length + 8)
    (hcs : rs.length < (serSystemState s).length + 8)
    (hpv : rv.length < U64MOD) (hpb : rb.length < U64MOD)
    (hps : rs.length < U64MOD)
    (hmv : (serVotesState v).length + 8 ≤ U64MOD)
    (hmb : (serBalancesState b).length + 8 ≤ U64MOD)
    (hms : (serSystemState s).length + 8 ≤ U64MOD) :
    store_proposals_state rp p = .error .AccountDataTooSmall ∧
    (8 ≤ rv.length → store_votes_state rv v = .error .InvalidAccountData) ∧
    (rv.length < 8 → store_votes_state rv v = .error .AccountDataTooSmall) ∧
    (8 ≤ rb.length →
      store_balances_state rb b = .error .InvalidAccountData) ∧
    (rb.length < 8 →
      store_balances_state rb b = .error .AccountDataTooSmall) ∧
    (8 ≤ rs.length → store_system_state rs s = .error .InvalidAccountData) ∧
    (rs.length < 8 → store_system_state rs s = .error .AccountDataTooSmall) := by
  have hv1 : 1 ≤ (serVotesState v).length := by
    have := serSeq_length_ge serVotesEntry v.votes
    simp only [serVotesState]; omega
  have hb1 : 1 ≤ (serBalancesState b).length := by
    have := serSeq_length_ge serBalancesEntry b.balances
    simp only [serBalancesState]; omega
  have hs1 : 1 ≤ (serSystemState s).length := by
    simp [serSystemState, serBool]
  exact ⟨storeCapFirst_too_small rp _ hcp,
    fun h8 => storeLenFirst_mid rv _ h8 hpv hcv,
    fun hlt => storeLenFirst_tiny rv _ hlt hv1 hmv,
    fun h8 => storeLenFirst_mid rb _ h8 hpb hcb,
    fun hlt => storeLenFirst_tiny rb _ hlt hb1 hmb,
    fun h8 => storeLenFirst_mid rs _ h8 hps hcs,
    fun hlt => storeLenFirst_tiny rs _ hlt hs1 hms⟩

theorem store_too_small_errors_witness :
    store_proposals_state (List.replicate 5 0) ⟨[]⟩ =
      .error .AccountDataTooSmall ∧
    store_votes_state (List.replicate 10 0) ⟨[]⟩ =
      .error .InvalidAccountData ∧
    store_balances_state (List.replicate 3 0) ⟨[]⟩ =
      .error .AccountDataTooSmall ∧
    store_system_state (List.replicate 12 0) ⟨false, 0⟩ =
      .error .InvalidAccountData := by
  have h := store_too_small_errors ⟨[]⟩ ⟨[]⟩ ⟨[]⟩ ⟨false, 0⟩
    (List.replicate 5 0) (List.replicate 10 0) (List.replicate 3 0)
    (List.replicate 12 0)
    (by decide) (by decide) (by decide) (by decide)
    (by decide) (by decide) (by decide)
    (by decide) (by decide) (by decide)
  exact ⟨h.1, h.2.1 (by decide), h.2.2.2.2.1 (by decide),
    h.2.2.2.2.2.1 (by decide)⟩

/-- C7. Submitting a proposal whose id is already present fails with
`InvalidArgument` before any insertion or store, so the persisted
table region still loads to the original table (with the original
entry for the id intact). -/
theorem submit_duplicate_rejected
    (proposer psa : AccountInfo) (rest : List AccountInfo)
    (pid : Nat) (payload old r0 : List Nat) (T : ProposalsState)
    (hsig : proposer.is_signer = true)
    (hlen : payload.length ≤ 1024)
    (hwf : wfProposals T)
    (hcap : (serProposalsState T).length + 8 ≤ r0.length)
    (hphys : r0.length < U64MOD)
    (hdata : psa.data = writeRegion r0 (serProposalsState T))
    (hmem : (pid, old) ∈ T.proposals) :
    submit_proposal (proposer :: psa :: rest) pid payload =
      .error .InvalidArgument ∧
    load_proposals_state psa.data = .ok T := by
  have hload : load_proposals_state psa.data = .ok T := by
    rw [hdata]
    exact (store_load_proposals r0 T hwf hcap hphys).2
  have hck : containsKey T.proposals pid = true := by
    simp only [containsKey, List.any_eq_true]
    exact ⟨(pid, old), hmem, by simp⟩
  refine ⟨?_, hload⟩
  simp only [submit_proposal, hsig]
  rw [if_neg (by simp), if_neg (by omega)]
  rw [hload]
  simp [hck]

theorem submit_duplicate_rejected_witness :
    submit_proposal
        [⟨pkA, true, true, []⟩,
         ⟨pkB, false, true,
           writeRegion (List.replicate 30 0)
             (serProposalsState ⟨[(1, [7])]⟩)⟩] 1 [9] =
      .error .InvalidArgument ∧
    load_proposals_state
        (writeRegion (List.replicate 30 0)
          (serProposalsState ⟨[(1, [7])]⟩)) =
      .ok ⟨[(1, [7])]⟩ := by
  have h := submit_duplicate_rejected ⟨pkA, true, true, []⟩
    ⟨pkB, false, true,
      writeRegion (List.replicate 30 0) (serProposalsState ⟨[(1, [7])]⟩)⟩
    [] 1 [9] [7] (List.replicate 30 0) ⟨[(1, [7])]⟩
    (by decide) (by decide) (by decide) (by decide) (by decide) rfl
    (by decide)
  exact h

/-- C1 (amended). For accounts meeting the claim's preconditions,
`transfer` debits the source and credits the destination by exactly
`amount` — provided additionally that the credited balance stays
representable in a `u64`; when it does not, the checked add fails with
`OverflowError` and neither region is written; and when the source
balance is below `amount`, the call fails with `InsufficientFunds`
(`Custom 1`) with neither region written. -/
theorem transfer_debits_credits
    (src dst sta : AccountInfo) (rest : List AccountInfo) (amount : Nat)
    (auth : List PubkeyBytes) (s d : TokenAccount)
    (hauth : src.key ∈ auth) (hsig : src.is_signer = true)
    (hw1 : src.is_writable = true) (hw2 : dst.is_writable = true)
    (hs : TokenAccount.unpack_unchecked src.data = .ok s)
    (hd : TokenAccount.unpack_unchecked dst.data = .ok d)
    (hsi : s.is_initialized = true) (hdi : d.is_initialized = true) :
    (amount ≤ s.amount → d.amount + amount < U64MOD →
      transfer (src :: dst :: sta :: rest) amount auth =
        .ok ({ src with data :=
            serTokenAccount { s with amount := s.amount - amount } } ::
          { dst with data :=
            serTokenAccount { d with amount := d.amount + amount } } ::
          sta :: rest)) ∧
    (amount ≤ s.amount → U64MOD ≤ d.amount + amount →
      transfer (src :: dst :: sta :: rest) amount auth =
        .error (.Custom 2)) ∧
    (s.amount < amount →
      transfer (src :: dst :: sta :: rest) amount auth =
        .error (.Custom 1)) := by
  obtain ⟨hsl, -⟩ := unpack_unchecked_ok _ _ hs
  obtain ⟨hdl, -⟩ := unpack_unchecked_ok _ _ hd
  have hpre : ∀ z : Except ProgramError (List AccountInfo),
      (match transferUpdate src.data dst.data amount with
        | .error e => .error e
        | .ok (nsd, ndd) =>
          .ok ({ src with data := nsd } :: { dst with data := ndd } ::
            sta :: rest)) = z →
      transfer (src :: dst :: sta :: rest) amount auth = z := by
    intro z hz
    simp only [transfer]
    rw [if_neg (by simp [hauth]), if_neg (by simp [hsig]),
      if_neg (by simp [hw1, hw2])]
    exact hz
  have hcommon : ∀ w : Except ProgramError (List Nat × List Nat),
      (s.amount < amount → w = .error (.Custom 1)) →
      (amount ≤ s.amount →
        w = (match checkedSub s.amount amount with
          | none => .error (.Custom 3)
          | some s' =>
            match checkedAdd d.amount amount with
            | none => .error (.Custom 2)
            | some d' =>
              match TokenAccount.pack { s with amount := s' } src.data with
              | .error e => .error e
              | .ok nsd =>
                match TokenAccount.pack { d with amount := d' } dst.data with
                | .error e => .error e
                | .ok ndd => .ok (nsd, ndd))) →
      transferUpdate src.data dst.data amount = w := by
    intro w hlt hge
    simp only [transferUpdate, hs, hd]
    rw [if_neg (by simp [hsi]), if_neg (by simp [hdi])]
    by_cases hc : s.amount < amount
    · rw [if_pos hc, hlt hc]
      rfl
    · rw [if_neg hc, hge (by omega)]
      rfl
  refine ⟨fun h1 h2 => ?_, fun h1 h2 => ?_, fun h1 => ?_⟩
  · refine hpre _ ?_
    rw [hcommon _ (by omega) (fun _ => rfl)]
    have hsub : checkedSub s.amount amount = some (s.amount - amount) := by
      simp [checkedSub, h1]
    have hadd : checkedAdd d.amount amount = some (d.amount + amount) := by
      simp [checkedAdd, h2]
    rw [hsub]
    dsimp only
    rw [hadd]
    dsimp only
    rw [show TokenAccount.pack { s with amount := s.amount - amount }
        src.data = .ok (serTokenAccount
          { s with amount := s.amount - amount }) by
      simp [TokenAccount.pack, hsl]]
    dsimp only
    rw [show TokenAccount.pack { d with amount := d.amount + amount }
        dst.data = .ok (serTokenAccount
          { d with amount := d.amount + amount }) by
      simp [TokenAccount.pack, hdl]]
  · refine hpre _ ?_
    rw [hcommon _ (by omega) (fun _ => rfl)]
    have hsub : checkedSub s.amount amount = some (s.amount - amount) := by
      simp [checkedSub, h1]
    have hadd : checkedAdd d.amount amount = none := by
      simp [checkedAdd]
      omega
    rw [hsub]
    dsimp only
    rw [hadd]
  · refine hpre _ ?_
    rw [hcommon _ (fun _ => rfl) (by omega)]

theorem transfer_debits_credits_witness :
    transfer [⟨pkA, true, true, serTokenAccount ⟨true, pkA, 10⟩⟩,
        ⟨pkB, false, true, serTokenAccount ⟨true, pkB, 5⟩⟩,
        ⟨pkC, false, false, []⟩] 3 [pkA] =
      .ok [⟨pkA, true, true, serTokenAccount ⟨true, pkA, 7⟩⟩,
        ⟨pkB, false, true, serTokenAccount ⟨true, pkB, 8⟩⟩,
        ⟨pkC, false, false, []⟩] := by
  have h := transfer_debits_credits
    ⟨pkA, true, true, serTokenAccount ⟨true, pkA, 10⟩⟩
    ⟨pkB, false, true, serTokenAccount ⟨true, pkB, 5⟩⟩
    ⟨pkC, false, false, []⟩ [] 3 [pkA] ⟨true, pkA, 10⟩ ⟨true, pkB, 5⟩
    (by decide) (by decide) (by decide) (by decide) (by decide)
    (by decide) (by decide) (by decide)
  exact h.1 (by decide) (by decide)

/-- C9 (amended). With at least one account after the primary and the
state account, `multisig` counts 1 for the primary plus the signer
flags of the accounts after the first two — the second supplied
account is never counted — into a wrapping `u8`, and fails
`Unauthorized` (`Custom 4`) exactly when that count is below
`required_signatures` (given the primary passes its authorization,
signer and writability checks). -/
theorem multisig_counts_tail_signers
    (ms sta : AccountInfo) (rest : List AccountInfo) (required : Nat)
    (auth : List PubkeyBytes)
    (hauth : ms.key ∈ auth) (hsig : ms.is_signer = true)
    (hw : ms.is_writable = true) (hrest : rest ≠ []) :
    (multisig (ms :: sta :: rest) required auth = .ok () ↔
      required ≤ (1 + rest.countP (·.is_signer)) % 256) ∧
    (multisig (ms :: sta :: rest) required auth = .error (.Custom 4) ↔
      (1 + rest.countP (·.is_signer)) % 256 < required) := by
  have hlen : ¬ ((ms :: sta :: rest).length < 3) := by
    cases rest with
    | nil => simp at hrest
    | cons a t => simp [Nat.succ_le_succ]
  have hred : multisig (ms :: sta :: rest) required auth =
      if (1 + rest.countP (·.is_signer)) % 256 < required then
        .error (.Custom 4)
      else .ok () := by
    simp only [multisig, hlen, if_false]
    rw [if_neg (by simp [hauth]), if_neg (by simp [hsig]),
      if_neg (by simp [hw])]
    rfl
  rw [hred]
  by_cases hc : (1 + rest.countP (·.is_signer)) % 256 < required
  · rw [if_pos hc]
    constructor
    · constructor
      · intro h; cases h
      · omega
    · constructor
      · intro h; omega
      · intro h; rfl
  · rw [if_neg hc]
    constructor
    · constructor
      · intro h; omega
      · intro h; rfl
    · constructor
      · intro h; cases h
      · omega

theorem multisig_counts_tail_signers_witness :
    multisig [⟨pkA, true, true, []⟩, ⟨pkB, true, false, []⟩,
      ⟨pkC, true, false, []⟩] 2 [pkA] = .ok () := by
  have h := multisig_counts_tail_signers ⟨pkA, true, true, []⟩
    ⟨pkB, true, false, []⟩ [⟨pkC, true, false, []⟩] 2 [pkA]
    (by decide) (by decide) (by decide) (by decide)
  exact h.1.mpr (by decide)

/-- The direct transfer core and the proposal-interpreter transfer core
succeed on exactly the same inputs with exactly the same outputs (their
only difference is folding the initialization checks into
`Pack::unpack` versus performing them explicitly after
`unpack_unchecked`). -/
theorem transfer_paths_ok_iff (sd dd : List Nat) (amt : Nat)
    (out : List Nat × List Nat) :
    execTransferUpdate sd dd amt = .ok out ↔
    transferUpdate sd dd amt = .ok out := by
  simp only [execTransferUpdate, transferUpdate, TokenAccount.unpack]
  cases hs : TokenAccount.unpack_unchecked sd with
  | error e => simp
  | ok s =>
    cases hd : TokenAccount.unpack_unchecked dd with
    | error e => cases hsi : s.is_initialized <;> simp [hsi]
    | ok d =>
      cases hsi : s.is_initialized <;> cases hdi : d.is_initialized <;>
        simp [hsi, hdi]

/-- C4 (amended). On an initialized token account the proposal-
triggered mint core coincides with the direct mint core (succeeding
and failing identically, with identical results); on an uninitialized
account they differ as the counterexample shows. The proposal-
triggered transfer core succeeds exactly when the direct transfer core
succeeds, with identical results, on every pair of regions. -/
theorem proposal_path_matches_direct (data sd dd : List Nat)
    (a amt : Nat) (t : TokenAccount)
    (hu : TokenAccount.unpack_unchecked data = .ok t)
    (hinit : t.is_initialized = true) :
    execMintUpdate data a = mintUpdate data a ∧
    ∀ out, (execTransferUpdate sd dd amt = .ok out ↔
      transferUpdate sd dd amt = .ok out) := by
  refine ⟨?_, fun out => transfer_paths_ok_iff sd dd amt out⟩
  simp only [execMintUpdate, mintUpdate, TokenAccount.unpack, hu]
  rw [if_pos hinit]

/-- C5. For a pending proposal in a persisted table: if the
interpreter step fails, `execute_proposal` returns that error with the
account list (hence the proposal-table region, hence the table with
the proposal still present) exactly as it was; if the interpreter step
succeeds, the proposal is removed from the table and the store of the
updated table into the table region succeeds (removal never lengthens
the encoding), so the new region loads to the table without the
proposal. -/
theorem execute_proposal_atomicity
    (executor psa tok sta : AccountInfo) (rest : List AccountInfo)
    (pid : Nat) (payload r0 : List Nat) (T : ProposalsState)
    (hsig : executor.is_signer = true)
    (hwf : wfProposals T)
    (hcap : (serProposalsState T).length + 8 ≤ r0.length)
    (hphys : r0.length < U64MOD)
    (hdata : psa.data = writeRegion r0 (serProposalsState T))
    (hlook : lookupProposal T.proposals pid = some payload) :
    (∀ e accs,
      interpStep (executor :: psa :: tok :: sta :: rest) payload =
        .err e accs →
      execute_proposal (executor :: psa :: tok :: sta :: rest) pid =
        .err e (executor :: psa :: tok :: sta :: rest) ∧
      load_proposals_state psa.data = .ok T) ∧
    (∀ accs1,
      interpStep (executor :: psa :: tok :: sta :: rest) payload =
        .ok accs1 →
      ∃ psa1, accs1.get? 1 = some psa1 ∧
        execute_proposal (executor :: psa :: tok :: sta :: rest) pid =
          .ok (accs1.set 1
            { psa1 with
              data := writeRegion psa1.data
                (serProposalsState ⟨eraseProposal T.proposals pid⟩) }) ∧
        load_proposals_state (writeRegion psa1.data
            (serProposalsState ⟨eraseProposal T.proposals pid⟩)) =
          .ok ⟨eraseProposal T.proposals pid⟩ ∧
        containsKey (eraseProposal T.proposals pid) pid = false) := by
  have hload : load_proposals_state psa.data = .ok T := by
    rw [hdata]
    exact (store_load_proposals r0 T hwf hcap hphys).2
  have hlenpsa : psa.data.length = r0.length := by
    rw [hdata]
    exact length_writeRegion r0 _ hcap
  constructor
  · intro e accs hstep
    have hacc := interpStep_err_unchanged _ _ _ _ hstep
    subst hacc
    refine ⟨?_, hload⟩
    simp only [execute_proposal]
    rw [if_neg (by simp [hsig]), hload]
    dsimp only
    rw [hlook]
    dsimp only
    rw [hstep]
  · intro accs1 hstep
    obtain ⟨psa1, hget1, hlen1⟩ :=
      interpStep_ok_get1 (executor :: psa :: tok :: sta :: rest) accs1
        payload psa rfl hstep
    have hcap1 : (serProposalsState
        ⟨eraseProposal T.proposals pid⟩).length + 8 ≤ psa1.data.length := by
      have h1 := serProposals_erase_le T.proposals pid
      have hTeta : serProposalsState ⟨T.proposals⟩ = serProposalsState T :=
        rfl
      rw [hTeta] at h1
      rw [hlen1, hlenpsa]
      omega
    have hphys1 : psa1.data.length < U64MOD := by
      rw [hlen1, hlenpsa]
      exact hphys
    have hsl := store_load_proposals psa1.data
      ⟨eraseProposal T.proposals pid⟩ (wfProposals_erase T pid hwf)
      hcap1 hphys1
    refine ⟨psa1, hget1, ?_, hsl.2,
      containsKey_erase T.proposals pid hwf.2.1⟩
    simp only [execute_proposal]
    rw [if_neg (by simp [hsig]), hload]
    dsimp only
    rw [hlook]
    dsimp only
    rw [hstep]
    dsimp only
    rw [hget1]
    dsimp only
    rw [hsl.1]

theorem execute_proposal_atomicity_witness :
    execute_proposal
      [⟨pkA, true, true, []⟩,
       ⟨pkB, false, true, writeRegion (List.replicate 40 0)
         (serProposalsState ⟨[(1, 0 :: leBytes 8 1000)]⟩)⟩,
       ⟨pkC, false, true, serTokenAccount ⟨true, pkC, 0⟩⟩,
       ⟨pkD, false, false, []⟩] 1 =
    .ok [⟨pkA, true, true, []⟩,
       ⟨pkB, false, true, writeRegion (writeRegion (List.replicate 40 0)
         (serProposalsState ⟨[(1, 0 :: leBytes 8 1000)]⟩))
         (serProposalsState ⟨[]⟩)⟩,
       ⟨pkC, false, true, serTokenAccount ⟨true, pkC, 1000⟩⟩,
       ⟨pkD, false, false, []⟩] := by
  have h := execute_proposal_atomicity ⟨pkA, true, true, []⟩
    ⟨pkB, false, true, writeRegion (List.replicate 40 0)
      (serProposalsState ⟨[(1, 0 :: leBytes 8 1000)]⟩)⟩
    ⟨pkC, false, true, serTokenAccount ⟨true, pkC, 0⟩⟩
    ⟨pkD, false, false, []⟩ [] 1 (0 :: leBytes 8 1000)
    (List.replicate 40 0) ⟨[(1, 0 :: leBytes 8 1000)]⟩
    (by decide) (by decide) (by decide) (by decide) rfl (by decide)
  obtain ⟨psa1, hget1, hexec, -, -⟩ := h.2
    [⟨pkA, true, true, []⟩,
     ⟨pkB, false, true, writeRegion (List.replicate 40 0)
       (serProposalsState ⟨[(1, 0 :: leBytes 8 1000)]⟩)⟩,
     ⟨pkC, false, true, serTokenAccount ⟨true, pkC, 1000⟩⟩,
     ⟨pkD, false, false, []⟩] (by decide)
  have hps : psa1 = ⟨pkB, false, true, writeRegion (List.replicate 40 0)
      (serProposalsState ⟨[(1, 0 :: leBytes 8 1000)]⟩)⟩ := by
    have h2 : (some psa1 : Option AccountInfo) =
        some ⟨pkB, false, true, writeRegion (List.replicate 40 0)
          (serProposalsState ⟨[(1, 0 :: leBytes 8 1000)]⟩)⟩ :=
      hget1.symm.trans rfl
    exact Option.some.inj h2
  subst hps
  rw [hexec]
  decide

theorem proposal_path_matches_direct_witness :
    execMintUpdate (serTokenAccount ⟨true, pkA, 4⟩) 6 =
      mintUpdate (serTokenAccount ⟨true, pkA, 4⟩) 6 ∧
    (execTransferUpdate (serTokenAccount ⟨true, pkA, 9⟩)
        (serTokenAccount ⟨true, pkB, 1⟩) 2 =
      .ok (serTokenAccount ⟨true, pkA, 7⟩, serTokenAccount ⟨true, pkB, 3⟩) ↔
     transferUpdate (serTokenAccount ⟨true, pkA, 9⟩)
        (serTokenAccount ⟨true, pkB, 1⟩) 2 =
      .ok (serTokenAccount ⟨true, pkA, 7⟩,
        serTokenAccount ⟨true, pkB, 3⟩)) := by
  have h := proposal_path_matches_direct (serTokenAccount ⟨true, pkA, 4⟩)
    (serTokenAccount ⟨true, pkA, 9⟩) (serTokenAccount ⟨true, pkB, 1⟩)
    6 2 ⟨true, pkA, 4⟩ (by decide) (by decide)
  exact ⟨h.1, h.2 _⟩

end DHelix
